import Mathlib

/-!
Verification of the droplet-analyzer core: shallow embedding of the
Young-Laplace fitter (`src/young_laplace.py`) and of the edge-extraction
pipeline (`image_processing.py`), with theorems checking the
natural-language specification against the code.

Real-valued numerical code is embedded over `ℝ`; library calls whose
internals live outside the repository (the ODE solver, OpenCV filters)
are parameters of the embedding, and the repository's own data flow
around them is translated line by line.
-/

namespace DropletAnalyzer

/-! ## Young-Laplace ODE right-hand side (`YoungLaplaceFitter._young_laplace_odes`) -/

/-- Embedding of `YoungLaplaceFitter._young_laplace_odes`: given the state
`(phi, r, z)` and the Bond number `bo`, return `(dphi_ds, dr_ds, dz_ds)`.
The source guards the apex singularity with `if r < 1e-9`. -/
noncomputable def young_laplace_odes (state : ℝ × ℝ × ℝ) (bo : ℝ) : ℝ × ℝ × ℝ :=
  let phi := state.1
  let r := state.2.1
  let z := state.2.2
  let dphi_ds := if r < 1e-9 then 2 - bo * z - 1 else 2 - bo * z - Real.sin phi / r
  let dr_ds := Real.cos phi
  let dz_ds := Real.sin phi
  (dphi_ds, dr_ds, dz_ds)

/-! ## Surface tension (`YoungLaplaceFitter.calculate_surface_tension`) -/

/-- Embedding of `YoungLaplaceFitter.calculate_surface_tension`:
`delta_rho * g * (apex_radius * calibration_factor)^2 / bond_number`
with `g = 9.81`.  The source contains no guard on `bond_number`. -/
noncomputable def calculate_surface_tension (delta_rho calibration_factor apex_radius
    bond_number : ℝ) : ℝ :=
  let g : ℝ := 9.81
  let apex_radius_physical := apex_radius * calibration_factor
  delta_rho * g * apex_radius_physical ^ 2 / bond_number

/-- C1: the Young-Laplace ODE right-hand side equals
`(2 - bo*z - sin(phi)/r, cos(phi), sin(phi))` whenever `r` is at least the
apex threshold `1e-9`, and when `r` is below the threshold its first
component is `2 - bo*z - 1`. -/
theorem young_laplace_odes_rhs (phi r z bo : ℝ) :
    (¬ r < 1e-9 → young_laplace_odes (phi, r, z) bo =
      (2 - bo * z - Real.sin phi / r, Real.cos phi, Real.sin phi)) ∧
    (r < 1e-9 → young_laplace_odes (phi, r, z) bo =
      (2 - bo * z - 1, Real.cos phi, Real.sin phi)) := by
  constructor <;> intro h <;> simp [young_laplace_odes, h]

/-- Witness for C1: both branches of `young_laplace_odes_rhs` evaluated at
concrete states. -/
theorem young_laplace_odes_rhs_witness :
    young_laplace_odes (0, 1, 0) 0 =
      (2 - 0 * 0 - Real.sin 0 / 1, Real.cos 0, Real.sin 0) ∧
    young_laplace_odes (0, 0, 0) 3 =
      (2 - 3 * 0 - 1, Real.cos 0, Real.sin 0) :=
  ⟨(young_laplace_odes_rhs 0 1 0 0).1 (by norm_num),
   (young_laplace_odes_rhs 0 0 0 3).2 (by norm_num)⟩

/-! ## Residuals (`YoungLaplaceFitter.calculate_residuals`) -/

/-- Euclidean distance between two points, as computed entrywise by
`scipy.spatial.distance.cdist`. -/
noncomputable def euclidDist (p q : ℝ × ℝ) : ℝ :=
  Real.sqrt ((p.1 - q.1) ^ 2 + (p.2 - q.2) ^ 2)

/-- The minimum distance from point `p` to a (nonempty) list of points:
one row of the `cdist` matrix reduced by `np.min(·, axis=1)`. -/
noncomputable def minDist (p : ℝ × ℝ) : List (ℝ × ℝ) → ℝ
  | [] => 0
  | q :: qs => qs.foldl (fun acc q2 => min acc (euclidDist p q2)) (euclidDist p q)

/-- Embedding of `YoungLaplaceFitter.calculate_residuals` with the theoretical
curve (the transformed generated profile) as a parameter: the residual vector
is the row-wise minimum of the pairwise distance matrix between the measured
edge points and the theoretical points. -/
noncomputable def calculate_residuals (edge_data theoretical : List (ℝ × ℝ)) : List ℝ :=
  edge_data.map (fun p => minDist p theoretical)

lemma foldl_min_le_init {α : Type} [LinearOrder α] (l : List α) (a : α) :
    l.foldl min a ≤ a := by
  induction l generalizing a with
  | nil => exact le_refl a
  | cons b l ih => exact le_trans (ih (min a b)) (min_le_left a b)

lemma foldl_min_le_mem {α : Type} [LinearOrder α] (l : List α) (a x : α)
    (hx : x ∈ l) : l.foldl min a ≤ x := by
  induction l generalizing a with
  | nil => cases hx
  | cons b l ih =>
    rw [List.foldl_cons]
    rcases List.mem_cons.mp hx with h | h
    · subst h
      exact le_trans (foldl_min_le_init l (min a x)) (min_le_right a x)
    · exact ih (min a b) h

lemma foldl_min_eq_init_or_mem {α : Type} [LinearOrder α] (l : List α) (a : α) :
    l.foldl min a = a ∨ l.foldl min a ∈ l := by
  induction l generalizing a with
  | nil => exact Or.inl rfl
  | cons b l ih =>
    rcases ih (min a b) with h | h
    · rcases min_choice a b with hm | hm
      · left
        rw [List.foldl_cons, h, hm]
      · right
        rw [List.foldl_cons, h, hm]
        exact List.mem_cons_self b l
    · exact Or.inr (List.mem_cons_of_mem b h)

lemma foldl_min_map {α β : Type} [LinearOrder β] (f : α → β) (l : List α) (a : β) :
    l.foldl (fun acc x => min acc (f x)) a = (l.map f).foldl min a := by
  induction l generalizing a with
  | nil => rfl
  | cons b l ih => simp [List.foldl_cons, ih]

lemma minDist_cons (p q0 : ℝ × ℝ) (qs : List (ℝ × ℝ)) :
    minDist p (q0 :: qs) = (qs.map (euclidDist p)).foldl min (euclidDist p q0) := by
  simp only [minDist]
  exact foldl_min_map _ _ _

lemma minDist_le (p : ℝ × ℝ) (th : List (ℝ × ℝ)) (q : ℝ × ℝ) (hq : q ∈ th) :
    minDist p th ≤ euclidDist p q := by
  cases th with
  | nil => cases hq
  | cons q0 qs =>
    rw [minDist_cons]
    rcases List.mem_cons.mp hq with h | h
    · subst h
      exact foldl_min_le_init _ _
    · exact foldl_min_le_mem _ _ _ (List.mem_map_of_mem (euclidDist p) h)

lemma minDist_attained (p : ℝ × ℝ) (th : List (ℝ × ℝ)) (hth : th ≠ []) :
    ∃ q ∈ th, minDist p th = euclidDist p q := by
  cases th with
  | nil => exact absurd rfl hth
  | cons q0 qs =>
    rw [minDist_cons]
    rcases foldl_min_eq_init_or_mem (qs.map (euclidDist p)) (euclidDist p q0) with h | h
    · exact ⟨q0, List.mem_cons_self q0 qs, h⟩
    · rcases List.mem_map.mp h with ⟨q, hq, hq2⟩
      exact ⟨q, List.mem_cons_of_mem q0 hq, hq2.symm⟩

/-- C2: for a nonempty theoretical curve the residual vector has exactly one
entry per measured edge point, and its `i`-th entry is the minimum over all
theoretical points of the Euclidean distance from the `i`-th measured point:
it is a lower bound on all such distances and is attained at some
theoretical point. -/
theorem calculate_residuals_nearest (edge th : List (ℝ × ℝ)) (hth : th ≠ []) :
    (calculate_residuals edge th).length = edge.length ∧
    ∀ i (h : i < edge.length),
      (calculate_residuals edge th)[i]? = some (minDist (edge.get ⟨i, h⟩) th) ∧
      (∀ q ∈ th, minDist (edge.get ⟨i, h⟩) th ≤ euclidDist (edge.get ⟨i, h⟩) q) ∧
      ∃ q ∈ th, minDist (edge.get ⟨i, h⟩) th = euclidDist (edge.get ⟨i, h⟩) q := by
  refine ⟨by simp [calculate_residuals], ?_⟩
  intro i h
  refine ⟨?_, fun q hq => minDist_le _ th q hq, minDist_attained _ th hth⟩
  simp [calculate_residuals, List.getElem?_map, List.getElem?_eq_getElem h]

/-- Witness for C2: the residual vector of one measured point against a
two-point theoretical curve. -/
theorem calculate_residuals_nearest_witness :
    (calculate_residuals [((0 : ℝ), (0 : ℝ))] [(0, 0), (3, 4)]).length = 1 ∧
    (calculate_residuals [((0 : ℝ), (0 : ℝ))] [(0, 0), (3, 4)])[0]? =
      some (minDist (0, 0) [(0, 0), (3, 4)]) :=
  ⟨(calculate_residuals_nearest [(0, 0)] [(0, 0), (3, 4)] (by simp)).1,
   ((calculate_residuals_nearest [(0, 0)] [(0, 0), (3, 4)] (by simp)).2 0
      (by norm_num)).1⟩

/-! ## Calibration radius (`calibrate` in `image_processing.py`) -/

/-- Embedding of the radius computation in `calibrate`, as written in the
source: `np.sqrt` is called with *two* positional arguments, and the second
positional argument of a NumPy ufunc is the `out` buffer, so the computed
per-point quantity is `sqrt((x - center_x)^2)` — the `(y - center_y)^2`
term is only the overwritten output buffer and does not enter the value. -/
noncomputable def calibration_radius_code (pts : List (ℝ × ℝ)) : ℝ :=
  let n : ℝ := pts.length
  let center_x := (pts.map Prod.fst).sum / n
  let distances := pts.map (fun p => Real.sqrt ((p.1 - center_x) ^ 2))
  distances.sum / n

/-- The radius computation as the spec words it: the mean over all points of
the Euclidean distance `sqrt((x - center_x)^2 + (y - center_y)^2)` from the
centroid. -/
noncomputable def calibration_radius_spec (pts : List (ℝ × ℝ)) : ℝ :=
  let n : ℝ := pts.length
  let center_x := (pts.map Prod.fst).sum / n
  let center_y := (pts.map Prod.snd).sum / n
  let distances := pts.map
    (fun p => Real.sqrt ((p.1 - center_x) ^ 2 + (p.2 - center_y) ^ 2))
  distances.sum / n

/-- C3: on the edge point set `[(0,0), (0,2)]` the code's radius (mean of
`sqrt((x-cx)^2)`, the vertical term having been passed as the ufunc `out`
buffer) is `0`, while the spec's mean Euclidean distance from the centroid
is `1`: the code does not compute the claimed quantity. -/
theorem calibration_radius_bug :
    calibration_radius_code [(0, 0), (0, 2)] = 0 ∧
    calibration_radius_spec [(0, 0), (0, 2)] = 1 ∧
    (0 : ℝ) ≠ 1 := by
  refine ⟨?_, ?_, by norm_num⟩
  · norm_num [calibration_radius_code]
  · norm_num [calibration_radius_spec, Real.sqrt_one]

/-- C4: the surface-tension computation is *not* guarded against a
near-zero Bond number: at `bond_number = 1e-6` (with `delta_rho = 1000`,
`calibration_factor = 1`, `apex_radius = 1`) it silently returns the
ordinary finite value `9.81e9`, rather than a flagged/NaN result. -/
theorem surface_tension_unguarded :
    calculate_surface_tension 1000 1 1 (1e-6) = 9810000000 := by
  norm_num [calculate_surface_tension]

/-! ## Profile generation post-processing (`YoungLaplaceFitter.generate_profile`) -/

/-- Embedding of the tail of `YoungLaplaceFitter.generate_profile`, with the
ODE solver's output rows `solution.y[1]` (radius) and `solution.y[2]`
(height) as parameters: the returned profile is `(profile_r, -profile_z)`,
the height row negated pointwise to make the droplet hang downward. -/
noncomputable def generate_profile_post (sol_r sol_z : List ℝ) : List ℝ × List ℝ :=
  let profile_r := sol_r
  let profile_z := sol_z.map (fun x => -x)
  (profile_r, profile_z)

/-- C10: the generated profile keeps the integrated radius row unchanged and
negates the integrated height row pointwise; when the integrated solution
starts at the apex initial state (`r(0)=0`, `z(0)=0`) the returned profile
still starts at `r=0`, `z=0`. -/
theorem generate_profile_flip (sol_r sol_z : List ℝ) :
    (generate_profile_post sol_r sol_z).1 = sol_r ∧
    (generate_profile_post sol_r sol_z).2.length = sol_z.length ∧
    (∀ i (h : i < sol_z.length),
      (generate_profile_post sol_r sol_z).2[i]? = some (-sol_z.get ⟨i, h⟩)) ∧
    (sol_r.head? = some 0 → sol_z.head? = some 0 →
      (generate_profile_post sol_r sol_z).1.head? = some 0 ∧
      (generate_profile_post sol_r sol_z).2.head? = some 0) := by
  refine ⟨rfl, by simp [generate_profile_post], ?_, ?_⟩
  · intro i h
    simp [generate_profile_post, List.getElem?_map, List.getElem?_eq_getElem h]
  · intro hr hz
    refine ⟨hr, ?_⟩
    cases sol_z with
    | nil => simp at hz
    | cons a l =>
      simp only [List.head?_cons, Option.some.injEq] at hz
      simp [generate_profile_post, hz]

/-- Witness for C10: the profile post-processing at a concrete solver output. -/
theorem generate_profile_flip_witness :
    (generate_profile_post [(0 : ℝ), 1] [0, 2]).2[1]? =
      some (-([(0 : ℝ), 2].get ⟨1, by norm_num⟩)) ∧
    (generate_profile_post [(0 : ℝ), 1] [0, 2]).2.head? = some 0 :=
  ⟨(generate_profile_flip [0, 1] [0, 2]).2.2.1 1 (by norm_num),
   ((generate_profile_flip [0, 1] [0, 2]).2.2.2 (by simp) (by simp)).2⟩

/-! ## Profile transformation (`YoungLaplaceFitter.transform_profile`) -/

/-- Embedding of `YoungLaplaceFitter.transform_profile`: mirror the one-sided
profile about the apex (`-np.flip(profile_r[1:])`, `np.flip(profile_z[1:])`),
concatenate, scale both axes by `apex_radius`, rotate by `rotation`, and
translate by `(apex_x, apex_y)`. -/
noncomputable def transform_profile (apex_radius apex_x apex_y rotation : ℝ)
    (profile_r profile_z : List ℝ) : List ℝ × List ℝ :=
  let r_left := ((profile_r.drop 1).reverse).map (fun x => -x)
  let r_full := r_left ++ profile_r
  let z_left := (profile_z.drop 1).reverse
  let z_full := z_left ++ profile_z
  let r_scaled := r_full.map (fun x => x * apex_radius)
  let z_scaled := z_full.map (fun x => x * apex_radius)
  let cos_rot := Real.cos rotation
  let sin_rot := Real.sin rotation
  let r_rotated := (r_scaled.zip z_scaled).map (fun p => p.1 * cos_rot - p.2 * sin_rot)
  let z_rotated := (r_scaled.zip z_scaled).map (fun p => p.1 * sin_rot + p.2 * cos_rot)
  let r_translated := r_rotated.map (fun x => x + apex_x)
  let z_translated := z_rotated.map (fun x => x + apex_y)
  (r_translated, z_translated)

/-- C7 fails as stated: with the identity parameterization
(`rotation=0`, `apex_x=0`, `apex_y=0`, `apex_radius=1`) the transformer does
*not* return the raw one-sided profile — on the two-point profile
`r=[0,1], z=[0,2]` it returns the mirrored three-point curve
`([-1,0,1], [2,0,2])`. -/
theorem transform_profile_not_raw :
    transform_profile 1 0 0 0 [(0 : ℝ), 1] [0, 2] ≠ ([0, 1], [0, 2]) := by
  intro hcontra
  have hlen : (transform_profile 1 0 0 0 [(0 : ℝ), 1] [0, 2]).1.length = 2 := by
    rw [hcontra]
    rfl
  simp [transform_profile] at hlen

/-- C7 amended: for profiles whose two coordinate arrays have equal length,
the identity parameterization returns exactly the mirror-concatenated
profile (left half: radius negated and reversed, height reversed, apex point
not duplicated), and in particular dropping the mirrored left half
reproduces the raw one-sided profile exactly. -/
theorem transform_profile_identity (profile_r profile_z : List ℝ)
    (hlen : profile_r.length = profile_z.length) :
    transform_profile 1 0 0 0 profile_r profile_z =
      (((profile_r.drop 1).reverse).map (fun x => -x) ++ profile_r,
       (profile_z.drop 1).reverse ++ profile_z) ∧
    (transform_profile 1 0 0 0 profile_r profile_z).1.drop
      (profile_r.length - 1) = profile_r ∧
    (transform_profile 1 0 0 0 profile_r profile_z).2.drop
      (profile_z.length - 1) = profile_z := by
  have hfull : (((profile_r.drop 1).reverse).map (fun x : ℝ => -x) ++ profile_r).length =
      ((profile_z.drop 1).reverse ++ profile_z).length := by
    simp [hlen]
  have hmain : transform_profile 1 0 0 0 profile_r profile_z =
      (((profile_r.drop 1).reverse).map (fun x => -x) ++ profile_r,
       (profile_z.drop 1).reverse ++ profile_z) := by
    unfold transform_profile
    simp only [Real.cos_zero, Real.sin_zero]
    have hz : ∀ l : List ℝ, l.map (fun x => x * 1) = l := by
      intro l
      simp
    rw [hz, hz, Prod.mk.injEq]
    constructor
    · have h1 : ∀ l1 l2 : List ℝ, l1.length = l2.length →
          ((l1.zip l2).map (fun p => p.1 * 1 - p.2 * 0)).map (fun x => x + 0) = l1 := by
        intro l1 l2 h
        have : (l1.zip l2).map (fun p : ℝ × ℝ => p.1 * 1 - p.2 * 0) =
            (l1.zip l2).map Prod.fst := by
          apply List.map_congr_left
          intro p _
          ring
        rw [this]
        simp [List.map_fst_zip l1 l2 (le_of_eq h)]
      exact h1 _ _ hfull
    · have h2 : ∀ l1 l2 : List ℝ, l1.length = l2.length →
          ((l1.zip l2).map (fun p => p.1 * 0 + p.2 * 1)).map (fun x => x + 0) = l2 := by
        intro l1 l2 h
        have : (l1.zip l2).map (fun p : ℝ × ℝ => p.1 * 0 + p.2 * 1) =
            (l1.zip l2).map Prod.snd := by
          apply List.map_congr_left
          intro p _
          ring
        rw [this]
        simp [List.map_snd_zip l1 l2 (le_of_eq h.symm)]
      exact h2 _ _ hfull
  refine ⟨hmain, ?_, ?_⟩
  · rw [hmain]
    have hllen : (((profile_r.drop 1).reverse).map (fun x : ℝ => -x)).length =
        profile_r.length - 1 := by
      simp
    rw [← hllen]
    exact List.drop_left _ _
  · rw [hmain]
    have hllen : ((profile_z.drop 1).reverse).length = profile_z.length - 1 := by
      simp
    rw [← hllen]
    exact List.drop_left _ _

/-- Witness for C7 amended: the identity transform of the two-point profile
`r=[0,1], z=[0,2]` is its mirror-concatenation, and dropping the left half
gives back the raw profile. -/
theorem transform_profile_identity_witness :
    transform_profile 1 0 0 0 [(0 : ℝ), 1] [0, 2] =
      ((([(0 : ℝ), 1].drop 1).reverse).map (fun x => -x) ++ [0, 1],
       (([(0 : ℝ), 2].drop 1).reverse) ++ [0, 2]) ∧
    (transform_profile 1 0 0 0 [(0 : ℝ), 1] [0, 2]).1.drop 1 = [0, 1] :=
  ⟨(transform_profile_identity [0, 1] [0, 2] (by norm_num)).1,
   (transform_profile_identity [0, 1] [0, 2] (by norm_num)).2.1⟩

/-! ## Binary images and `bwareaopen` (`image_processing.py`)

A binary image is modelled as its set of foreground pixels (grid
coordinates).  `bwareaopen` wraps `skimage.morphology.remove_small_objects`,
which deletes every 4-connected component of fewer than `min_size` pixels;
connected components are computed by iterating one-step neighbour growth to
a fixpoint (at most `card` steps suffice). -/

/-- A pixel of the image grid. -/
abbrev Pixel : Type := ℕ × ℕ

/-- 4-connectivity on the grid (the default connectivity of
`skimage.morphology.remove_small_objects`). -/
def adjacent (p q : Pixel) : Bool :=
  (p.1 = q.1 ∧ (p.2 = q.2 + 1 ∨ q.2 = p.2 + 1)) ∨
  (p.2 = q.2 ∧ (p.1 = q.1 + 1 ∨ q.1 = p.1 + 1))

/-- One growth step: all pixels of `S` already in `A` or adjacent to `A`. -/
def grow (S A : Finset Pixel) : Finset Pixel :=
  S.filter (fun q => q ∈ A ∨ ∃ a ∈ A, adjacent a q)

/-- Iterated growth. -/
def growIter : ℕ → Finset Pixel → Finset Pixel → Finset Pixel
  | 0, _, A => A
  | n + 1, S, A => growIter n S (grow S A)

/-- The 4-connected component of `p` inside the foreground set `S`
(empty when `p` is background). -/
def component (S : Finset Pixel) (p : Pixel) : Finset Pixel :=
  if p ∈ S then growIter S.card S {p} else ∅

/-- Embedding of `bwareaopen`: keep exactly the pixels whose connected
component has at least `min_size` pixels (`remove_small_objects` deletes
components strictly smaller than `min_size`). -/
def bwareaopen (S : Finset Pixel) (min_size : ℕ) : Finset Pixel :=
  S.filter (fun p => min_size ≤ (component S p).card)

/-! ## Cropping (`crop_image`) -/

/-- The crop bounds read from the parameter object in `crop_image`. -/
structure CropRegion where
  x_start : ℕ
  y_start : ℕ
  x_end : ℕ
  y_end : ℕ

/-- Embedding of `crop_image`: the NumPy slice
`frame[y_start:y_end, x_start:x_end]` on a row-major frame, which clamps
silently at the frame boundary. -/
def crop_image {α : Type} (frame : List (List α)) (cp : CropRegion) :
    List (List α) :=
  ((frame.drop cp.y_start).take (cp.y_end - cp.y_start)).map
    (fun row => (row.drop cp.x_start).take (cp.x_end - cp.x_start))

/-! ## Edge extraction (`process_frame_edge`) -/

/-- The two-pass cleaning stage of `process_frame_edge`, from the Canny edge
image onward: a first `bwareaopen` with the fixed `min_object_size`, then a
second `bwareaopen` with the adaptive size
`floor(count_of_first_pass_points * min_size_mult)`.  The
`adaptive_threshold` flag is accepted but never read, exactly as in the
source, so the second pass always runs.  Returns
(first-pass point set, final point set). -/
def edge_cleaning (edges : Finset Pixel) (min_object_size : ℕ)
    (min_size_mult : ℚ) (adaptive_threshold : Bool) :
    Finset Pixel × Finset Pixel :=
  let clean_pass1 := bwareaopen edges min_object_size
  let min_size_adapted := (⌊(clean_pass1.card : ℚ) * min_size_mult⌋).toNat
  let clean_edges := bwareaopen clean_pass1 min_size_adapted
  (clean_pass1, clean_edges)

/-- The record returned by `process_frame_edge` (the binary edge image and
the extracted point set coincide in the pixel-set model). -/
structure EdgeResult (Img : Type) where
  cropped_image : Img
  filtered_image : Img
  binary_edge_image : Finset Pixel
  edge_points : Finset Pixel
  num_edge_points : ℕ

/-- Embedding of `process_frame_edge`.  The OpenCV library calls
(`cvtColor`, `medianBlur`, `GaussianBlur`, `Canny`) live outside the
repository and are parameters of the embedding; the repository's own data
flow around them is kept: crop, grayscale, median filter, Gaussian blur,
Canny, then the two cleaning passes.  Both `adaptive_threshold` and
`calibration_radius` are parameters the body never reads, as in the
source. -/
def process_frame_edge {α Img : Type}
    (cvtColorGray : List (List α) → Img)
    (medianBlur : Img → ℕ → Img)
    (gaussianBlur : Img → ℚ → Img)
    (canny : Img → ℕ → ℕ → Finset Pixel)
    (frame : List (List α)) (crop_params : CropRegion)
    (filter_size canny_low canny_high min_object_size : ℕ)
    (min_size_mult : ℚ) (sigma : ℚ)
    (adaptive_threshold : Bool) (calibration_radius : Option ℚ) :
    EdgeResult Img :=
  let imgcrop_color := crop_image frame crop_params
  let imgcrop := cvtColorGray imgcrop_color
  let im_med := medianBlur imgcrop filter_size
  let im_gaussian := gaussianBlur im_med sigma
  let edges := canny im_gaussian canny_low canny_high
  let cleaned := edge_cleaning edges min_object_size min_size_mult adaptive_threshold
  { cropped_image := imgcrop
    filtered_image := im_med
    binary_edge_image := cleaned.2
    edge_points := cleaned.2
    num_edge_points := cleaned.2.card }

/-- C6: for every edge image and every parameter choice, the point set
surviving the adaptive second cleaning pass is a subset of the first-pass
point set, so its point count never exceeds the first-pass count. -/
theorem second_pass_subset (edges : Finset Pixel) (min_object_size : ℕ)
    (min_size_mult : ℚ) (adaptive_threshold : Bool) :
    (edge_cleaning edges min_object_size min_size_mult adaptive_threshold).2 ⊆
      (edge_cleaning edges min_object_size min_size_mult adaptive_threshold).1 ∧
    (edge_cleaning edges min_object_size min_size_mult adaptive_threshold).2.card ≤
      (edge_cleaning edges min_object_size min_size_mult adaptive_threshold).1.card := by
  have hsub : (edge_cleaning edges min_object_size min_size_mult adaptive_threshold).2 ⊆
      (edge_cleaning edges min_object_size min_size_mult adaptive_threshold).1 :=
    Finset.filter_subset _ _
  exact ⟨hsub, Finset.card_le_card hsub⟩

/-- C9: the `calibration_radius` warm-start argument never participates in
edge extraction — for any library primitives, frame, crop and parameters,
two invocations differing only in `calibration_radius` return identical
results (cropped image, filtered image, edge mask, point set, and count). -/
theorem calibration_radius_unused {α Img : Type}
    (cvtColorGray : List (List α) → Img) (medianBlur : Img → ℕ → Img)
    (gaussianBlur : Img → ℚ → Img) (canny : Img → ℕ → ℕ → Finset Pixel)
    (frame : List (List α)) (crop_params : CropRegion)
    (filter_size canny_low canny_high min_object_size : ℕ)
    (min_size_mult : ℚ) (sigma : ℚ) (adaptive_threshold : Bool)
    (rad1 rad2 : Option ℚ) :
    process_frame_edge cvtColorGray medianBlur gaussianBlur canny frame
      crop_params filter_size canny_low canny_high min_object_size
      min_size_mult sigma adaptive_threshold rad1 =
    process_frame_edge cvtColorGray medianBlur gaussianBlur canny frame
      crop_params filter_size canny_low canny_high min_object_size
      min_size_mult sigma adaptive_threshold rad2 := rfl

/-- A calibration-frame edge image witnessing C5: an 8-pixel run and a
separate 2-pixel run on one row. -/
def calibEdges : Finset Pixel :=
  {(0, 0), (1, 0), (2, 0), (3, 0), (4, 0), (5, 0), (6, 0), (7, 0),
   (10, 0), (11, 0)}

/-- C5 fails on the code: with the calibration profile
(`min_object_size = 2`, default `min_size_mult = 0.33`) and the adaptive
pass supposedly disabled (`adaptive_threshold = false`), the cleaning still
applies the second pass — the flag changes nothing, and on `calibEdges` the
returned point set is strictly smaller than the first-pass point set (the
2-pixel component survives pass 1 but is removed by the adaptive pass with
threshold `floor(10 * 0.33) = 3`). -/
theorem calibration_second_pass_still_runs :
    edge_cleaning calibEdges 2 (33 / 100) false =
      edge_cleaning calibEdges 2 (33 / 100) true ∧
    (edge_cleaning calibEdges 2 (33 / 100) false).2 ≠
      (edge_cleaning calibEdges 2 (33 / 100) false).1 := by
  refine ⟨rfl, ?_⟩
  have hpass1 : bwareaopen calibEdges 2 = calibEdges := by decide
  have hfloor : (⌊((calibEdges.card : ℚ)) * (33 / 100)⌋).toNat = 3 := by
    have hc : calibEdges.card = 10 := by decide
    rw [hc]
    have hfl : (⌊((10 : ℕ) : ℚ) * (33 / 100)⌋) = 3 := by norm_num
    rw [hfl]
    rfl
  simp only [edge_cleaning, hpass1, hfloor]
  decide

/-- C8 fails as stated: the crop region `(x_start, y_start) = (0, 0)`,
`(x_end, y_end) = (2, 1)` is valid (`x_start < x_end`, `y_start < y_end`),
but on a 1×1 frame the slice clamps and the output width is 1, not
`x_end - x_start = 2`. -/
theorem crop_dims_counterexample :
    (CropRegion.mk 0 0 2 1).x_start < (CropRegion.mk 0 0 2 1).x_end ∧
    (CropRegion.mk 0 0 2 1).y_start < (CropRegion.mk 0 0 2 1).y_end ∧
    ¬ (∀ row ∈ crop_image [[(0 : ℕ)]] (CropRegion.mk 0 0 2 1),
        row.length = 2 - 0) := by
  refine ⟨by decide, by decide, ?_⟩
  intro hall
  have := hall [0] (by decide)
  simp at this

/-- C8 amended: for a rectangular frame of row length `w` and a valid
CropRegion lying within the frame bounds (`x_end ≤ w`,
`y_end ≤ height`), the cropped output has height `y_end - y_start` and
every row has width `x_end - x_start`; out-of-bounds regions are instead
silently clamped by the slice. -/
theorem crop_dims {α : Type} (frame : List (List α)) (w : ℕ) (cp : CropRegion)
    (hw : ∀ row ∈ frame, row.length = w)
    (hx : cp.x_start < cp.x_end) (hy : cp.y_start < cp.y_end)
    (hxe : cp.x_end ≤ w) (hye : cp.y_end ≤ frame.length) :
    (crop_image frame cp).length = cp.y_end - cp.y_start ∧
    ∀ row ∈ crop_image frame cp, row.length = cp.x_end - cp.x_start := by
  constructor
  · simp only [crop_image, List.length_map, List.length_take, List.length_drop]
    exact min_eq_left (Nat.sub_le_sub_right hye cp.y_start)
  · intro row hrow
    simp only [crop_image, List.mem_map] at hrow
    obtain ⟨orig, horig, hrow⟩ := hrow
    have horigmem : orig ∈ frame :=
      List.mem_of_mem_drop (List.mem_of_mem_take horig)
    subst hrow
    simp only [List.length_take, List.length_drop, hw orig horigmem]
    exact min_eq_left (Nat.sub_le_sub_right hxe cp.x_start)

/-- Witness for C8 amended: cropping the top row of a 2×2 frame. -/
theorem crop_dims_witness :
    (crop_image [[(0 : ℕ), 1], [2, 3]] (CropRegion.mk 0 0 2 1)).length = 1 ∧
    ∀ row ∈ crop_image [[(0 : ℕ), 1], [2, 3]] (CropRegion.mk 0 0 2 1),
      row.length = 2 :=
  crop_dims [[0, 1], [2, 3]] 2 (CropRegion.mk 0 0 2 1)
    (by decide) (by decide) (by decide) (by decide) (by decide)

end DropletAnalyzer
